import Mathlib

/-!
Verification of the webbpsf_ext PSF coefficient cache and residual correction
engine against its specification.  The Lean definitions below are shallow
embeddings of the Python source in `webbpsf_ext/webbpsf_ext_core.py` and
`webbpsf_ext/image_manip.py`; floating point arithmetic is idealised as `ℚ`,
numpy arrays are index functions with explicit shapes, and Python exceptions
are `Except` errors.
-/

set_option linter.unusedVariables false

/-! # Definitions -/

/-! ## Decimal formatting helpers

Python f-string formatting (`{n}`, `{x:.2f}`, `{x:+.1f}`, `{x:.0f}`) as used by
`_gen_save_name`.  Rounding is round-half-even on exact rationals.
-/

/-- Decimal digits of a natural number (most significant first), with explicit
structural fuel so that it evaluates by kernel reduction. -/
def natStrAux : ℕ → ℕ → List Char
  | 0, _ => []
  | _ + 1, 0 => []
  | fuel + 1, n + 1 =>
      natStrAux fuel ((n + 1) / 10) ++ [Nat.digitChar ((n + 1) % 10)]

/-- Decimal string of a natural number, mirroring Python `str(n)` / `f'{n}'`. -/
def natStr (n : ℕ) : String :=
  if n = 0 then "0" else String.mk (natStrAux n n)

/-- Round-half-even of a rational to an integer, mirroring the rounding used by
Python fixed-point formatting. -/
def rndHalfEven (q : ℚ) : ℤ :=
  let f := ⌊q⌋
  let r := q - f
  if r < 1 / 2 then f
  else if 1 / 2 < r then f + 1
  else if 2 ∣ f then f else f + 1

/-- Left-pad a digit list with zeros to a minimum length. -/
def padZeroChars (l : List Char) (k : ℕ) : List Char :=
  List.replicate (k - l.length) '0' ++ l

/-- Body of Python fixed-point formatting: a sign prefix, the magnitude digits,
and a decimal point when `prec > 0`. -/
def pyFmtCore (sign : String) (mag : ℕ) (prec : ℕ) : String :=
  let ds := padZeroChars (natStr mag).data (prec + 1)
  let ip := String.mk (ds.take (ds.length - prec))
  let fp := String.mk (ds.drop (ds.length - prec))
  sign ++ ip ++ (if prec = 0 then "" else "." ++ fp)

/-- Python `f'{q:.pf}'` on an exact rational. -/
def pyFmtF (prec : ℕ) (q : ℚ) : String :=
  pyFmtCore (if q < 0 then "-" else "") (rndHalfEven (q * 10 ^ prec)).natAbs prec

/-- Python `f'{q:+.pf}'` on an exact rational (always-signed variant). -/
def pyFmtFPlus (prec : ℕ) (q : ℚ) : String :=
  pyFmtCore (if q < 0 then "-" else "+") (rndHalfEven (q * 10 ^ prec)).natAbs prec

/-- Python substring containment `sub in s`. -/
@[reducible] def strContains (s sub : String) : Bool :=
  (s.splitOn sub).length ≥ 2

/-! ## Instrument configuration and cache key (C1, C8)

The configuration fields of `NIRCam_ext` / `MIRI_ext` read by `_gen_save_name`
(webbpsf_ext_core.py lines 2083-2174) and by the `npsf` / `ndeg` properties
(lines 257-308 and 1228-1277).  Option-typed fields mirror Python attributes
that may be `None`; `quickOpt`, `ndegOpt`, `npsfOpt` are the user-settable
backing fields `_quick`, `_ndeg`, `_npsf`.
-/

structure InstConfig where
  name : String
  filter : String
  channel : String
  module : String
  pupil_mask : Option String
  image_mask : Option String
  fov_pix : ℕ
  use_fov_pix_plus1 : Bool
  oversample : ℕ
  jitter : Option String
  jitter_sigma : Option ℚ
  source_offset_r : Option ℚ
  source_offset_theta : Option ℚ
  coron_shift_x : Option ℚ
  coron_shift_y : Option ℚ
  bar_offset : Option ℚ
  opd_str : String
  include_si_wfe : Bool
  include_distortions : Bool
  use_legendre : Bool
  quickOpt : Option Bool
  ndegOpt : Option ℤ
  npsfOpt : Option ℤ
  bp_wave_min : ℚ
  bp_wave_max : ℚ

/-- The `quick` property: defaults to `True` when `_quick` is unset. -/
@[reducible] def quick (c : InstConfig) : Bool :=
  c.quickOpt.getD true

/-- Effective jitter sigma used by `_gen_save_name`: `options.get('jitter_sigma', 0)`
forced to 0 when either `jitter` or `jitter_sigma` is `None`. -/
@[reducible] def jsigEff (c : InstConfig) : ℚ :=
  if c.jitter = none ∨ c.jitter_sigma = none then 0 else c.jitter_sigma.getD 0

/-- Shallow embedding of `_gen_save_name` (webbpsf_ext_core.py lines 2083-2174):
the cache-key file name built from the instrument configuration. -/
def gen_save_name (c : InstConfig) (wfe_drift : ℚ) : String :=
  let fstr := if quick c then c.filter ++ "_" else ""
  let pstr := c.pupil_mask.getD "CLEAR"
  let mstr := c.image_mask.getD "NONE"
  let fmp0 := fstr ++ pstr ++ "_" ++ mstr
  let fov_pix := if c.use_fov_pix_plus1 then c.fov_pix + 1 else c.fov_pix
  let osamp := c.oversample
  let fmp_str := if c.name = "NIRCam" then
      (if strContains c.channel "long" then "LW" else "SW") ++ c.module ++ "_" ++ fmp0
    else fmp0
  let bar_str := if c.name = "NIRCam" then
      match c.bar_offset with
      | none => ""
      | some b => "_bar" ++ pyFmtF 2 b
    else ""
  let jsig_mas := jsigEff c * 1000
  let offset_r := c.source_offset_r.getD 0
  let offset_theta := c.source_offset_theta.getD 0
  let rth_str := "r" ++ pyFmtF 2 offset_r ++ "_th" ++ pyFmtFPlus 1 offset_theta
  let cx := c.coron_shift_x.getD 0
  let cy := c.coron_shift_y.getD 0
  let moff_str := (if cx = 0 then "" else "_mx" ++ pyFmtF 3 cx)
      ++ (if cy = 0 then "" else "_my" ++ pyFmtF 3 cy)
  let opd_full := if wfe_drift ≠ 0 then c.opd_str ++ "-" ++ pyFmtF 0 wfe_drift ++ "nm" else c.opd_str
  let fname := fmp_str ++ "_pix" ++ natStr fov_pix ++ "_os" ++ natStr osamp
      ++ "_jsig" ++ pyFmtF 0 jsig_mas ++ "_" ++ rth_str ++ moff_str ++ bar_str ++ "_" ++ opd_full
  let fname := fname ++ (if c.include_si_wfe then "_siwfe" else "")
  let fname := fname ++ (if c.include_distortions then "_distort" else "")
  let fname := fname ++ (if c.use_legendre then "_legendre" else "")
  fname ++ ".fits"

/-- A baseline NIRCam coronagraphic configuration used as a concrete input. -/
def cfgA : InstConfig :=
  { name := "NIRCam", filter := "F335M", channel := "long", module := "A",
    pupil_mask := some "CIRCLYOT", image_mask := some "MASK335R",
    fov_pix := 33, use_fov_pix_plus1 := false, oversample := 2,
    jitter := none, jitter_sigma := none, source_offset_r := none,
    source_offset_theta := none, coron_shift_x := none, coron_shift_y := none,
    bar_offset := none, opd_str := "OPD_RevAA_prelaunch", include_si_wfe := true,
    include_distortions := false, use_legendre := true, quickOpt := some true,
    ndegOpt := some 4, npsfOpt := none, bp_wave_min := 28000, bp_wave_max := 36000 }

/-- The same configuration with a different polynomial fit degree. -/
def cfgB : InstConfig := { cfgA with ndegOpt := some 9 }

/-- The NIRCam `wave_fit` property. -/
def nircamWaveFit (c : InstConfig) : ℚ × ℚ :=
  if quick c then (c.bp_wave_min / 10 ^ 4, c.bp_wave_max / 10 ^ 4)
  else if c.channel = "long" then (2.4, 5.2) else (0.5, 2.5)

/-- The NIRCam `ndeg` property; raises `ValueError` for an unrecognised filter
in quick mode. -/
def nircamNdeg (c : InstConfig) : Except String ℤ :=
  match c.ndegOpt with
  | some d => .ok d
  | none =>
    if quick c then
      if c.filter.endsWith "W2" then .ok 9
      else if c.filter.endsWith "W" then .ok 8
      else if c.filter.endsWith "M" then .ok 6
      else if c.filter.endsWith "N" then .ok 4
      else .error (c.filter ++ " not recognized as narrow, medium, wide, or double wide.")
    else .ok 9

/-- The NIRCam `npsf` property: default density 10 or 20 PSFs per micron,
clamped to at least 5 and to strictly more than the fit degree. -/
def nircamNpsf (c : InstConfig) : Except String ℤ :=
  match nircamNdeg c with
  | .error e => .error e
  | .ok d =>
    let w := nircamWaveFit c
    let npsf0 : ℤ :=
      match c.npsfOpt with
      | none => ⌈(if c.channel = "long" then (10 : ℚ) else 20) * (w.2 - w.1)⌉
      | some v => v
    let n1 : ℤ := if npsf0 < 5 then 5 else npsf0
    .ok (if n1 ≤ d then d + 1 else n1)

/-- The MIRI `wave_fit` property. -/
def miriWaveFit (c : InstConfig) : ℚ × ℚ :=
  if quick c then (c.bp_wave_min / 10 ^ 4, c.bp_wave_max / 10 ^ 4)
  else (5, 30)

/-- The MIRI `ndeg` property (both branches of the source give the same
defaults). -/
def miriNdeg (c : InstConfig) : ℤ :=
  match c.ndegOpt with
  | some d => d
  | none =>
    if c.use_legendre then (if quick c then 4 else 7)
    else (if quick c then 4 else 7)

/-- The MIRI `npsf` property: 10 PSFs per micron by default, clamped to at
least 5 and to strictly more than the fit degree. -/
def miriNpsf (c : InstConfig) : ℤ :=
  let d := miriNdeg c
  let w := miriWaveFit c
  let npsf0 : ℤ :=
    match c.npsfOpt with
    | none => ⌈(10 : ℚ) * (w.2 - w.1)⌉
    | some v => v
  let n1 : ℤ := if npsf0 < 5 then 5 else npsf0
  if n1 ≤ d then d + 1 else n1

/-! ## Monochromatic PSF batch (C2, C5)

Shallow embedding of `_wrap_coeff_for_mp` (webbpsf_ext_core.py lines
2894-2936) and of the batch-collection and sum-clamp portion of
`_gen_psf_coeff` (lines 3062-3101).  A monochromatic image is a flat list of
pixel values; the external optical-propagation engine is a function returning
`none` when `calc_psf` raises.
-/

/-- A monochromatic oversampled image: flat list of pixel values. -/
abbrev MonoImg := List ℚ

/-- Total pixel sum of an image. -/
def imSum (im : MonoImg) : ℚ := im.sum

/-- Error message logged by `_wrap_coeff_for_mp` when the engine raises. -/
def wrapErrMsg (w : ℚ) : String :=
  "Caught exception in worker thread (w = " ++ toString w ++ ")"

/-- Shallow embedding of `_wrap_coeff_for_mp`: calls the engine at one
wavelength; if the engine raises, logs the offending wavelength and returns
`None`, otherwise returns the image. -/
def wrap_coeff_for_mp (engine : ℚ → Option MonoImg) (w : ℚ) :
    Option MonoImg × List String :=
  match engine w with
  | none => (none, [wrapErrMsg w])
  | some hdu => (some hdu, [])

/-- The defensive energy clamp of `_gen_psf_coeff` (lines 3097-3101): an image
whose total sum exceeds 1 is divided by that sum. -/
def clampPsfSum (im : MonoImg) : MonoImg :=
  let data_sum := imSum im
  if 1 < data_sum then im.map (· / data_sum) else im

/-- The clamp loop over the collected results (lines 3097-3101): iterates over
`hdu_arr`; touching the `.data` of a `None` entry raises `AttributeError`. -/
def clampLoop : List (Option MonoImg) → Except String (List MonoImg)
  | [] => .ok []
  | none :: _ => .error "AttributeError: NoneType object has no attribute data"
  | some im :: rest =>
    match clampLoop rest with
    | .error e => .error e
    | .ok out => .ok (clampPsfSum im :: out)

/-- The multiprocess branch of `_gen_psf_coeff` (lines 3065-3082): all
wavelengths are dispatched through `_wrap_coeff_for_mp` in input order, a
`RuntimeError` is raised when the first result is `None`, and the clamp loop
runs over the collected array. -/
def runBatchMP (engine : ℚ → Option MonoImg) (waves : List ℚ) :
    Except String (List MonoImg) × List String :=
  let results := waves.map (wrap_coeff_for_mp engine)
  let logs := (results.map Prod.snd).flatten
  let hdu_arr := results.map Prod.fst
  match hdu_arr with
  | [] => (.error "IndexError: list index out of range", logs)
  | first :: _ =>
    if first.isNone then
      (.error "RuntimeError: Returned None values. Issue with multiprocess or STPSF??", logs)
    else (clampLoop hdu_arr, logs)

/-- The single-process branch (lines 3083-3090): each wavelength is processed
in turn and a `RuntimeError` is raised at the first `None` result. -/
def collectSP (engine : ℚ → Option MonoImg) :
    List ℚ → Except String (List MonoImg) × List String
  | [] => (.ok [], [])
  | w :: rest =>
    match wrap_coeff_for_mp engine w with
    | (none, lg) => (.error "RuntimeError: Returned None values. Issue with STPSF??", lg)
    | (some im, lg) =>
      match collectSP engine rest with
      | (.error e, lgs) => (.error e, lg ++ lgs)
      | (.ok hdus, lgs) => (.ok (im :: hdus), lg ++ lgs)

/-- Single-process batch: collect then clamp (the clamp loop is shared with the
multiprocess path). -/
def runBatchSP (engine : ℚ → Option MonoImg) (waves : List ℚ) :
    Except String (List MonoImg) × List String :=
  match collectSP engine waves with
  | (.error e, logs) => (.error e, logs)
  | (.ok hdus, logs) => (clampLoop (hdus.map some), logs)

/-- Wavelength batch of `_gen_psf_coeff`: multiprocess when `nproc > 1`, else
single process. -/
def genPsfCoeffImages (engine : ℚ → Option MonoImg) (nproc : ℕ) (waves : List ℚ) :
    Except String (List MonoImg) × List String :=
  if nproc > 1 then runBatchMP engine waves else runBatchSP engine waves

/-- The polynomial fit stage runs only when the whole batch succeeded; `fit`
stands for `jl_poly_fit` applied to the collected images. -/
def genPsfCoeffFit (fit : List MonoImg → MonoImg) (engine : ℚ → Option MonoImg)
    (nproc : ℕ) (waves : List ℚ) : Except String MonoImg :=
  (genPsfCoeffImages engine nproc waves).1.map fit

/-- A concrete failing engine: raises at wavelength 2, succeeds elsewhere. -/
def engineEx : ℚ → Option MonoImg := fun w => if w = 2 then none else some [1]

/-! ## Control flow of `_calc_psf_from_coeff` (C9)

Event-trace embedding of the coefficient-modification section of
`_calc_psf_from_coeff` (webbpsf_ext_core.py lines 4298-4347): field- or
mask-dependent coefficient modification, the `assert wfe_drift >= 0`, the
drift modification, the addition of the modifications to the baseline
coefficients, and image synthesis, in source order.
-/

inductive CalcEv where
  | fieldMod : CalcEv
  | maskMod : CalcEv
  | driftMod : CalcEv
  | applyMod : CalcEv
  | synth : CalcEv
  deriving DecidableEq

/-- Result of one `_calc_psf_from_coeff` call: the ordered list of executed
steps and whether the call aborted with an `AssertionError`. -/
structure CalcOutcome where
  events : List CalcEv
  assertionError : Bool
  deriving DecidableEq

/-- Trace of `_calc_psf_from_coeff`: a `None` drift defaults to 0 (line 4301);
the field modification runs when no image mask is present and the mask
modification when one is (lines 4309-4321); then the assertion (line 4325),
the drift path guarded by `wfe_drift > 0` (line 4326), the addition to the
baseline coefficients (line 4334) and image synthesis (lines 4339-4384). -/
def calcPsfFromCoeffTrace (hasImageMask : Bool) (wfeDriftOpt : Option ℚ) : CalcOutcome :=
  let wfe := wfeDriftOpt.getD 0
  let evs := if hasImageMask then [CalcEv.maskMod] else [CalcEv.fieldMod]
  if wfe < 0 then ⟨evs, true⟩
  else ⟨evs ++ (if 0 < wfe then [CalcEv.driftMod] else []) ++ [CalcEv.applyMod, CalcEv.synth],
        false⟩

/-! ## Residual construction (C6)

The residual subtraction in `_gen_wfedrift_coeff` (webbpsf_ext_core.py line
3432: `cf_wfe = cf_wfe - cf_wfe[0]`) and `_gen_wfemask_coeff` (line 3918:
`cf_all -= coeff0`, where `coeff0` is the cube computed at mask offset
`(0, 0)`).  A coefficient cube is a flattened pixel vector; the expensive
`gen_psf_coeff` pipeline is abstracted as the function `cube` from the
perturbation value to the fitted cube.
-/

/-- A flattened coefficient cube. -/
abbrev CubeVec := ℕ → ℚ

/-- Raw drift residuals of `_gen_wfedrift_coeff`: one fitted cube per drift
value in `wfe_list`, minus the first cube (`cf_wfe[0]`). -/
def wfedriftResiduals (wfe_list : List ℚ) (cube : ℚ → CubeVec) : List CubeVec :=
  let cf_wfe := wfe_list.map cube
  let base := cf_wfe.headD (fun _ => 0)
  cf_wfe.map (fun cf => fun p => cf p - base p)

/-- Raw mask-offset residuals of `_gen_wfemask_coeff`: one fitted cube per
offset, minus the cube at zero offset (`coeff0`). -/
def wfemaskResiduals (offsets : List (ℚ × ℚ)) (cube : ℚ × ℚ → CubeVec) : List CubeVec :=
  offsets.map (fun p => fun q => cube p q - cube (0, 0) q)

/-! ## `pad_or_cut_to_size` and `fshift` (C10, C7)

Shallow embedding of `pad_or_cut_to_size` (image_manip.py lines 852-1018) and
of the 2-D branch of `fshift` (lines 48-204, `interp='linear'`, the setting
used by `pad_or_cut_to_size`; the cubic/quintic branches delegate to scipy, an
external collaborator).  A numpy array is a shape list plus a total index
function.
-/

/-- A numpy ndarray: dynamic shape plus indexing function. -/
structure NdArr where
  shape : List ℕ
  dat : List ℕ → ℚ

/-- The `new_shape` argument: a bare number or a tuple. -/
inductive ShapeSpec where
  | scalar (v : ℚ)
  | tup (dims : List ℕ)

/-- Python `int()` truncation toward zero on a rational. -/
def ratTrunc (q : ℚ) : ℤ := Int.tdiv q.num q.den

/-- Shallow embedding of the 2-D branch of `fshift` with linear interpolation:
early return for negligible shifts, split into integer and fractional parts,
constant-pad, integer roll, bilinear fractional blend, and final crop. -/
def fshift2d (im : ℕ → ℕ → ℚ) (ny nx : ℕ) (delx dely : ℚ) (pad : Bool) (cval : ℚ) :
    ℕ → ℕ → ℚ :=
  if |delx| ≤ 1 / 100000 ∧ |dely| ≤ 1 / 100000 then im
  else
    let intx0 := ratTrunc delx
    let inty0 := ratTrunc dely
    let fracx0 := delx - intx0
    let fracy0 := dely - inty0
    let intx := if fracx0 < 0 then intx0 - 1 else intx0
    let fracx := if fracx0 < 0 then fracx0 + 1 else fracx0
    let inty := if fracy0 < 0 then inty0 - 1 else inty0
    let fracy := if fracy0 < 0 then fracy0 + 1 else fracy0
    let padx : ℕ := if pad then intx.natAbs + 5 else 0
    let pady : ℕ := if pad then inty.natAbs + 5 else 0
    let H : ℕ := ny + 2 * pady
    let W : ℕ := nx + 2 * padx
    let padded : ℕ → ℕ → ℚ := fun i j =>
      if pady ≤ i ∧ i < pady + ny ∧ padx ≤ j ∧ j < padx + nx then im (i - pady) (j - padx)
      else cval
    let rolled : ℕ → ℕ → ℚ := fun i j =>
      padded (((i : ℤ) - inty) % (H : ℤ)).toNat (((j : ℤ) - intx) % (W : ℤ)).toNat
    let fxis0 := |fracx| ≤ 1 / 100000
    let fyis0 := |fracy| ≤ 1 / 100000
    let interp : ℕ → ℕ → ℚ :=
      if fxis0 ∧ fyis0 then rolled
      else fun i j =>
        rolled i j * ((1 - fracx) * (1 - fracy))
          + (if fyis0 then 0
             else rolled (((i : ℤ) - 1) % (H : ℤ)).toNat j * ((1 - fracx) * fracy))
          + (if fxis0 then 0
             else rolled i (((j : ℤ) - 1) % (W : ℤ)).toNat * ((1 - fracy) * fracx))
          + (if fxis0 ∨ fyis0 then 0
             else rolled (((i : ℤ) - 1) % (H : ℤ)).toNat (((j : ℤ) - 1) % (W : ℤ)).toNat
               * (fracx * fracy))
    fun i j => interp (pady + i) (padx + j)

/-- The default shift function of `pad_or_cut_to_size`: `fshift` with
`pad=True` and the given fill value as `cval`. -/
def fshiftPad (im : ℕ → ℕ → ℚ) (ny nx : ℕ) (delx dely : ℚ) (cval : ℚ) : ℕ → ℕ → ℚ :=
  fshift2d im ny nx delx dely true cval

/-- Normalisation of the `new_shape` argument to `(ny_new, nx_new)` per the
input dimensionality (lines 892-916). -/
def normNewShape (ndim : ℕ) (ns : ShapeSpec) : Except String (ℕ × ℕ) :=
  match ns with
  | .scalar v =>
    let m := (ratTrunc (v + 1 / 2)).toNat
    if ndim = 1 then .ok (1, m) else .ok (m, m)
  | .tup [] => .error "IndexError: tuple index out of range"
  | .tup [n1] => if ndim = 1 then .ok (1, n1) else .ok (n1, n1)
  | .tup [n1, n2] => .ok (n1, n2)
  | .tup _ => .error "ValueError: too many values to unpack"

/-- Normalisation of `offset_vals` to `(ny_off, nx_off)` (lines 936-951). -/
def normOffsets (ndim : ℕ) (ov : Option (List ℚ)) : Except String (ℚ × ℚ) :=
  match ov with
  | none => .ok (0, 0)
  | some l =>
    if ndim = 1 then
      match l with
      | [x] => .ok (0, x)
      | _ => .error "ValueError: offset_vals should be a single value."
    else
      match l with
      | [y, x] => .ok (y, x)
      | _ => .error "ValueError: offset_vals should have two values."

/-- Centered slice bounds (lines 953-973): `int((new-old)/2 + 0.5)` becomes
`(d+1)/2` in natural division. -/
def cropBounds (n n_new : ℕ) : ℕ × ℕ :=
  if n_new > n then ((n_new - n + 1) / 2, (n_new - n + 1) / 2 + n)
  else if n > n_new then ((n - n_new + 1) / 2, (n - n_new + 1) / 2 + n_new)
  else (0, n)

/-- The four pad/crop cases of `pad_or_cut_to_size` (lines 975-1010) on a
3-D working view, with the per-plane shift calls. -/
def pad_or_cut_core (shift_func : (ℕ → ℕ → ℚ) → ℕ → ℕ → ℚ → ℚ → ℚ → (ℕ → ℕ → ℚ))
    (ny nx : ℕ) (arr3 : ℕ → ℕ → ℕ → ℚ) (ny_new nx_new : ℕ)
    (fill_val : ℚ) (ny_off nx_off : ℚ) : ℕ → ℕ → ℕ → ℚ :=
  let nb := cropBounds nx nx_new
  let mb := cropBounds ny ny_new
  let n0 := nb.1
  let n1 := nb.2
  let m0 := mb.1
  let m1 := mb.2
  if nx_new ≥ nx ∧ ny_new ≥ ny then
    let out : ℕ → ℕ → ℕ → ℚ := fun z i j =>
      if m0 ≤ i ∧ i < m1 ∧ n0 ≤ j ∧ j < n1 then arr3 z (i - m0) (j - n0) else fill_val
    fun z => shift_func (out z) ny_new nx_new nx_off ny_off fill_val
  else if nx_new ≤ nx ∧ ny_new ≤ ny then
    let src : ℕ → ℕ → ℕ → ℚ :=
      if nx_off ≠ 0 ∨ ny_off ≠ 0 then
        fun z => shift_func (arr3 z) ny nx nx_off ny_off fill_val
      else arr3
    fun z i j => src z (m0 + i) (n0 + j)
  else if nx_new ≤ nx ∧ ny_new ≥ ny then
    let src : ℕ → ℕ → ℕ → ℚ :=
      if nx_off ≠ 0 then fun z => shift_func (arr3 z) ny nx nx_off 0 fill_val else arr3
    let out : ℕ → ℕ → ℕ → ℚ := fun z i j =>
      if m0 ≤ i ∧ i < m1 then src z (i - m0) (n0 + j) else fill_val
    fun z => shift_func (out z) ny_new nx_new 0 ny_off fill_val
  else
    let src : ℕ → ℕ → ℕ → ℚ :=
      if ny_off ≠ 0 then fun z => shift_func (arr3 z) ny nx 0 ny_off fill_val else arr3
    let out : ℕ → ℕ → ℕ → ℚ := fun z i j =>
      if n0 ≤ j ∧ j < n1 then src z (m0 + i) (j - n0) else fill_val
    fun z => shift_func (out z) ny_new nx_new nx_off 0 fill_val

/-- Shallow embedding of `pad_or_cut_to_size`: dimensionality dispatch and
reshape to a 3-D working view (lines 885-919), early return of the reshaped
input when the original shape equals the normalised new shape and no offsets
are given (lines 921-925, reachable only for 2-D input), the four pad/crop
cases, and the final rank fix-up (lines 1012-1016). -/
def pad_or_cut_to_size (shift_func : (ℕ → ℕ → ℚ) → ℕ → ℕ → ℚ → ℚ → ℚ → (ℕ → ℕ → ℚ))
    (a : NdArr) (new_shape : ShapeSpec) (fill_val : ℚ)
    (offset_vals : Option (List ℚ)) : Except String NdArr :=
  match a.shape with
  | [nx1] =>
    match normNewShape 1 new_shape with
    | .error e => .error e
    | .ok (ny_new, nx_new) =>
      match normOffsets 1 offset_vals with
      | .error e => .error e
      | .ok (ny_off, nx_off) =>
        let arr3 : ℕ → ℕ → ℕ → ℚ := fun _ _ j => a.dat [j]
        let out := pad_or_cut_core shift_func 1 nx1 arr3 ny_new nx_new fill_val ny_off nx_off
        if ny_new = 1 then
          .ok ⟨[nx_new], fun idx => match idx with | [j] => out 0 0 j | _ => 0⟩
        else
          .ok ⟨[1, ny_new, nx_new],
            fun idx => match idx with | [z, i, j] => out z i j | _ => 0⟩
  | [ny1, nx1] =>
    match normNewShape 2 new_shape with
    | .error e => .error e
    | .ok (ny_new, nx_new) =>
      if a.shape = [ny_new, nx_new] ∧ offset_vals = none then
        .ok ⟨[1, ny1, nx1], fun idx => match idx with | [_, i, j] => a.dat [i, j] | _ => 0⟩
      else
        match normOffsets 2 offset_vals with
        | .error e => .error e
        | .ok (ny_off, nx_off) =>
          let arr3 : ℕ → ℕ → ℕ → ℚ := fun _ i j => a.dat [i, j]
          let out := pad_or_cut_core shift_func ny1 nx1 arr3 ny_new nx_new fill_val ny_off nx_off
          .ok ⟨[ny_new, nx_new], fun idx => match idx with | [i, j] => out 0 i j | _ => 0⟩
  | [nz1, ny1, nx1] =>
    match normNewShape 3 new_shape with
    | .error e => .error e
    | .ok (ny_new, nx_new) =>
      match normOffsets 3 offset_vals with
      | .error e => .error e
      | .ok (ny_off, nx_off) =>
        let arr3 : ℕ → ℕ → ℕ → ℚ := fun z i j => a.dat [z, i, j]
        let out := pad_or_cut_core shift_func ny1 nx1 arr3 ny_new nx_new fill_val ny_off nx_off
        .ok ⟨[nz1, ny_new, nx_new],
          fun idx => match idx with | [z, i, j] => out z i j | _ => 0⟩
  | _ => .error "ValueError: Only up to 3 dimensions allowed."

/-! ## Query-time resize tails (C7)

The resize tails of `_coeff_mod_wfe_drift` (webbpsf_ext_core.py lines
4489-4494) and `_coeff_mod_wfe_mask` (lines 4676-4681): when the correction
tensor's dimensions disagree with the baseline cube's, each plane is run
through `pad_or_cut_to_size` with the cube's pixel dimensions.
-/

/-- A correction/coefficient tensor `[nz, ny, nx]`. -/
structure Cube3 where
  nz : ℕ
  ny : ℕ
  nx : ℕ
  d : ℕ → ℕ → ℕ → ℚ

/-- One `ny × nx` plane of a tensor as an ndarray, as iterated over by
`for im in cf_mod`. -/
def cube3Plane (c : Cube3) (z : ℕ) : NdArr :=
  ⟨[c.ny, c.nx], fun idx => match idx with | [i, j] => c.d z i j | _ => 0⟩

/-- Resize tail of `_coeff_mod_wfe_drift`: skip when the trailing pixel
dimensions already agree (`np.allclose(psf_coeff.shape[-2:], cf_mod.shape[-2:])`),
otherwise pad/crop every plane to the cube's pixel dimensions and restack. -/
def driftResizeTail (psf_coeff cf_mod : Cube3) : Except String Cube3 :=
  if cf_mod.ny = psf_coeff.ny ∧ cf_mod.nx = psf_coeff.nx then .ok cf_mod
  else
    match (List.range cf_mod.nz).mapM
        (fun z => pad_or_cut_to_size fshiftPad (cube3Plane cf_mod z)
          (.tup [psf_coeff.ny, psf_coeff.nx]) 0 none) with
    | .error e => .error e
    | .ok planes => .ok ⟨cf_mod.nz, psf_coeff.ny, psf_coeff.nx,
        fun z i j => (planes.getD z ⟨[], fun _ => 0⟩).dat [i, j]⟩

/-- Resize tail of `_coeff_mod_wfe_mask`: the shape test compares all three
trailing dimensions (`np.allclose(psf_coeff.shape, cf_mod.shape[-3:])`), the
resize itself is identical. -/
def maskResizeTail (psf_coeff cf_mod : Cube3) : Except String Cube3 :=
  if cf_mod.nz = psf_coeff.nz ∧ cf_mod.ny = psf_coeff.ny ∧ cf_mod.nx = psf_coeff.nx then
    .ok cf_mod
  else
    match (List.range cf_mod.nz).mapM
        (fun z => pad_or_cut_to_size fshiftPad (cube3Plane cf_mod z)
          (.tup [psf_coeff.ny, psf_coeff.nx]) 0 none) with
    | .error e => .error e
    | .ok planes => .ok ⟨cf_mod.nz, psf_coeff.ny, psf_coeff.nx,
        fun z i j => (planes.getD z ⟨[], fun _ => 0⟩).dat [i, j]⟩

/-! ## On/off-axis drift blending (C4)

Shallow embedding of `_coeff_mod_wfe_drift` (webbpsf_ext_core.py lines
4430-4496) for a single requested field coordinate, together with
`gen_mask_transmission_map` (lines 608-646), which squares the amplitude
transmission supplied by the external geometric-transmission function.
-/

/-- Legendre polynomials over the rationals. -/
def legendreQ : ℕ → ℚ → ℚ
  | 0, _ => 1
  | 1, x => x
  | n + 2, x =>
      ((2 * (n : ℚ) + 3) * x * legendreQ (n + 1) x - ((n : ℚ) + 1) * legendreQ n x)
        / ((n : ℚ) + 2)

/-- Modelled from the spec: `jl_poly` (defined in `maths.py`, which is not
under `src/`) evaluates, per pixel, the Legendre-basis polynomial whose
coefficient planes are stacked in `cf`, at the query value `x` mapped onto
`[-1, 1]` via the domain bounds `lxmap` (spec section 4.1, evaluation
contract, with `use_legendre=True`). -/
def jl_poly (x : ℚ) (cf : List Cube3) (lxmap : ℚ × ℚ) : Cube3 :=
  let xnorm := 2 * (x - lxmap.1) / (lxmap.2 - lxmap.1) - 1
  match cf with
  | [] => ⟨0, 0, 0, fun _ _ _ => 0⟩
  | c0 :: _ =>
    ⟨c0.nz, c0.ny, c0.nx, fun z i j =>
      ((List.range cf.length).map
        (fun k => legendreQ k xnorm * (cf.getD k c0).d z i j)).sum⟩

/-- `gen_mask_transmission_map`: intensity transmission is the square of the
amplitude transmission returned by the external `_transmission_map`. -/
def gen_mask_transmission_map (ampTrans : ℚ × ℚ → ℚ) (coord : ℚ × ℚ) : ℚ :=
  (ampTrans coord) ^ 2

/-- Instrument state read by `_coeff_mod_wfe_drift`: the baseline coefficient
cube, the fitted on-axis and (for coronagraphy) off-axis drift models, the
drift-domain bounds, and the coronagraph flag. -/
structure WfeDriftState where
  psf_coeff : Cube3
  cf_on : Option (List Cube3)
  cf_off : Option (List Cube3)
  lxmap : ℚ × ℚ
  is_coron : Bool

/-- The linear on/off blend `avals * off + bvals * on` with
`(avals, bvals) = (trans, 1 - trans)` (lines 4465-4471). -/
def blendCube (trans : ℚ) (cf_mod_off cf_mod_on : Cube3) : Cube3 :=
  ⟨cf_mod_on.nz, cf_mod_on.ny, cf_mod_on.nx,
    fun z i j => trans * cf_mod_off.d z i j + (1 - trans) * cf_mod_on.d z i j⟩

/-- Shallow embedding of `_coeff_mod_wfe_drift` for one field coordinate:
returns `none` for the scalar-0 paths (zero drift, or drift model absent); in
the coronagraphic path evaluates both drift models at the requested amplitude,
obtains the intensity transmission (0 when no coordinate is given), blends,
and runs the resize tail; the non-coronagraphic path evaluates the single
model.  A missing off-axis model in the coronagraphic path crashes in the
source (`None.reshape`), embedded as an error. -/
def coeff_mod_wfe_drift (st : WfeDriftState) (wfe_drift : ℚ)
    (coord_vals : Option (ℚ × ℚ)) (ampTrans : ℚ × ℚ → ℚ) :
    Except String (Option Cube3) :=
  if wfe_drift = 0 then .ok none
  else
    match st.cf_on with
    | none => .ok none
    | some cf_fit_on =>
      if st.is_coron then
        match st.cf_off with
        | none => .error "AttributeError: NoneType object has no attribute reshape"
        | some cf_fit_off =>
          let trans : ℚ :=
            match coord_vals with
            | none => 0
            | some c => gen_mask_transmission_map ampTrans c
          let cf_mod_on := jl_poly wfe_drift cf_fit_on st.lxmap
          let cf_mod_off := jl_poly wfe_drift cf_fit_off st.lxmap
          let cf_mod := blendCube trans cf_mod_off cf_mod_on
          (driftResizeTail st.psf_coeff cf_mod).map some
      else
        let cf_mod := jl_poly wfe_drift cf_fit_on st.lxmap
        (driftResizeTail st.psf_coeff cf_mod).map some

/-- A concrete coronagraphic drift state for the C4 witness. -/
def stEx : WfeDriftState :=
  { psf_coeff := ⟨1, 1, 1, fun _ _ _ => 0⟩,
    cf_on := some [⟨1, 1, 1, fun _ _ _ => 2⟩],
    cf_off := some [⟨1, 1, 1, fun _ _ _ => 3⟩],
    lxmap := (0, 40),
    is_coron := true }

/-! ## Symmetry-derived mask-offset quadrants (C3)

Shallow embedding of the quadrant-stitching section of `_gen_wfemask_coeff`:
the MIRI branch (webbpsf_ext_core.py lines 3930-3989), and the NIRCam
small-grid round and bar branches (lines 4012-4110).  A residual coefficient
cube is `[ncf, nypix, nxpix]`; numpy `[::-1]` slicing on a block of `n-1` rows
is the index map `i ↦ n-2-i`; `rotate_offset` (image_manip.py 1248-1307)
returns its input unchanged at angle 0 and otherwise delegates to
`scipy.ndimage.rotate`, kept here as the abstract rotation family `rot`.
-/

/-- A residual coefficient cube indexed `[ncf, nypix, nxpix]`. -/
abbrev CCube := ℕ → ℕ → ℕ → ℚ

/-- A 2-D grid of cubes. -/
abbrev CGrid := ℕ → ℕ → CCube

/-- Flip along the image y-axis (`[:, ::-1, :]`). -/
def flipYImg (nypix : ℕ) (c : CCube) : CCube := fun k i j => c k (nypix - 1 - i) j

/-- Flip along the image x-axis (`[:, :, ::-1]`). -/
def flipXImg (nxpix : ℕ) (c : CCube) : CCube := fun k i j => c k i (nxpix - 1 - j)

/-- `rotate_offset(c, angle, reshape=False, ...)`: identity at angle 0 (and no
center), otherwise the external scipy rotation `rot angle`. -/
def rotate_offset (rot : ℚ → CCube → CCube) (angle : ℚ) (c : CCube) : CCube :=
  if angle = 0 then c else rot angle c

/-- The compensating rotation `0 if self._rotation is None else 2*self._rotation`. -/
def fieldRot2x (rotation : Option ℚ) : ℚ :=
  match rotation with
  | none => 0
  | some r => 2 * r

/-- `np.concatenate(..., axis=0)` of two index grids, the first having `n1`
rows. -/
def vcatG {α : Type} (n1 : ℕ) (A B : ℕ → ℕ → α) : ℕ → ℕ → α :=
  fun i j => if i < n1 then A i j else B (i - n1) j

/-- `np.concatenate(..., axis=1)` of two index grids, the first having `n1`
columns. -/
def hcatG {α : Type} (n1 : ℕ) (A B : ℕ → ℕ → α) : ℕ → ℕ → α :=
  fun i j => if j < n1 then A i j else B i (j - n1)

/-- MIRI `cf_negy` block (lines 3938-3946): reverse the rows of the explicit
block, flip each cube along y, rotate by the compensating angle. -/
def miriNegY (n nypix : ℕ) (rot : ℚ → CCube → CCube) (fr : ℚ) (cf : CGrid) : CGrid :=
  fun i j => rotate_offset rot fr (flipYImg nypix (cf (n - 2 - i) j))

/-- MIRI `cf_negx` block (lines 3948-3956). -/
def miriNegX (n nxpix : ℕ) (rot : ℚ → CCube → CCube) (fr : ℚ) (cf : CGrid) : CGrid :=
  fun i j => rotate_offset rot fr (flipXImg nxpix (cf i (n - 2 - j)))

/-- MIRI `cf_negxy` block (lines 3958-3964): both flips, no rotation. -/
def miriNegXY (n nypix nxpix : ℕ) (cf : CGrid) : CGrid :=
  fun i j => flipXImg nxpix (flipYImg nypix (cf (n - 2 - i) (n - 2 - j)))

/-- MIRI stitched residual grid (lines 3966-3983): explicit quadrant (`n × n`,
zero offset at the final index) plus the three symmetry-derived quadrants. -/
def miriCfAll (n nypix nxpix : ℕ) (rot : ℚ → CCube → CCube) (rotation : Option ℚ)
    (cf : CGrid) : CGrid :=
  let fr := fieldRot2x rotation
  hcatG n (vcatG n cf (miriNegY n nypix rot fr cf))
    (vcatG n (miriNegX n nxpix rot fr cf) (miriNegXY n nypix nxpix cf))

/-- MIRI stitched x-offsets (`xoff[i,j] = xs j`, negated and reversed columns
in the right half). -/
def miriXoffAll (n : ℕ) (xs : ℕ → ℚ) : ℕ → ℕ → ℚ :=
  hcatG n (vcatG n (fun _ j => xs j) (fun _ j => xs j))
    (vcatG n (fun _ j => -xs (n - 2 - j)) (fun _ j => -xs (n - 2 - j)))

/-- MIRI stitched y-offsets (`yoff[i,j] = ys i`, negated and reversed rows in
the bottom half). -/
def miriYoffAll (n : ℕ) (ys : ℕ → ℚ) : ℕ → ℕ → ℚ :=
  hcatG n (vcatG n (fun i _ => ys i) (fun i _ => -ys (n - 2 - i)))
    (vcatG n (fun i _ => ys i) (fun i _ => -ys (n - 2 - i)))

/-- The NIRCam small-grid rotation guard (lines 4032, 4045, 4093): the
compensating rotation is applied only when `np.abs(field_rot) < 0.01`. -/
def nrcRotIf (rot : ℚ → CCube → CCube) (fr : ℚ) (c : CCube) : CCube :=
  if |fr| < 1 / 100 then rotate_offset rot fr c else c

/-- NIRCam round small-grid `cf_negy` block (lines 4019-4024): copied without
flip or rotation (chromatic y-shifts break that symmetry). -/
def nrcRoundNegY (n : ℕ) (cf : CGrid) : CGrid :=
  fun i j => cf (n - 2 - i) j

/-- NIRCam round small-grid `cf_negx` block (lines 4026-4036): x-flip, then
the guarded rotation. -/
def nrcRoundNegX (n nxpix : ℕ) (rot : ℚ → CCube → CCube) (fr : ℚ) (cf : CGrid) : CGrid :=
  fun i j => nrcRotIf rot fr (flipXImg nxpix (cf i (n - 2 - j)))

/-- NIRCam round small-grid `cf_negxy` block (lines 4038-4049): x-flip only,
then the guarded rotation. -/
def nrcRoundNegXY (n nxpix : ℕ) (rot : ℚ → CCube → CCube) (fr : ℚ) (cf : CGrid) : CGrid :=
  fun i j => nrcRotIf rot fr (flipXImg nxpix (cf (n - 2 - i) (n - 2 - j)))

/-- NIRCam round small-grid stitched residual grid (lines 4051-4068). -/
def nrcRoundCfAll (n nxpix : ℕ) (rot : ℚ → CCube → CCube) (rotation : Option ℚ)
    (cf : CGrid) : CGrid :=
  let fr := fieldRot2x rotation
  hcatG n (vcatG n cf (nrcRoundNegY n cf))
    (vcatG n (nrcRoundNegX n nxpix rot fr cf) (nrcRoundNegXY n nxpix rot fr cf))

/-- NIRCam bar small-grid `cf_negy` block (lines 4085-4097): y-flip, then the
guarded rotation. -/
def nrcBarNegY (ny nypix : ℕ) (rot : ℚ → CCube → CCube) (fr : ℚ) (cf : CGrid) : CGrid :=
  fun i j => nrcRotIf rot fr (flipYImg nypix (cf (ny - 2 - i) j))

/-- NIRCam bar small-grid stitched residual grid (lines 4099-4102). -/
def nrcBarCfAll (ny nypix : ℕ) (rot : ℚ → CCube → CCube) (rotation : Option ℚ)
    (cf : CGrid) : CGrid :=
  vcatG ny cf (nrcBarNegY ny nypix rot (fieldRot2x rotation) cf)

/-- A rotation family acting nontrivially (stand-in for a genuine nonzero
scipy rotation). -/
def rotEx : ℚ → CCube → CCube := fun _ c => fun k i j => c k i j + 1

/-- The all-zero cube grid. -/
def cfZero : CGrid := fun _ _ => fun _ _ _ => 0

/-! # Theorems

One main theorem per claim (C1-C10), each preceded by the helper lemmas it
needs, with a counterexample theorem where the claim fails on the code and a
closed witness instantiating every theorem that carries hypotheses.
-/

theorem natStrAux_eq_digits (fuel : ℕ) :
    ∀ n : ℕ, n ≤ fuel → natStrAux fuel n = ((Nat.digits 10 n).map Nat.digitChar).reverse := by
  induction fuel with
  | zero =>
    intro n hn
    interval_cases n
    simp [natStrAux]
  | succ fuel ih =>
    intro n hn
    match n with
    | 0 => simp [natStrAux]
    | m + 1 =>
      have hdiv : (m + 1) / 10 ≤ fuel := by
        have := Nat.div_lt_self (Nat.succ_pos m) (by norm_num : 1 < 10)
        omega
      rw [natStrAux, ih _ hdiv, Nat.digits_def' (by norm_num : 1 < 10) (Nat.succ_pos m)]
      simp

theorem digitChar_inj_of_lt {a b : ℕ} (ha : a < 10) (hb : b < 10)
    (h : Nat.digitChar a = Nat.digitChar b) : a = b := by
  interval_cases a <;> interval_cases b <;> simp_all [Nat.digitChar]

theorem map_digitChar_inj : ∀ (l1 l2 : List ℕ), (∀ x ∈ l1, x < 10) → (∀ x ∈ l2, x < 10) →
    l1.map Nat.digitChar = l2.map Nat.digitChar → l1 = l2 := by
  intro l1
  induction l1 with
  | nil => intro l2 _ _ h; cases l2 <;> simp_all
  | cons a t ih =>
    intro l2 h1 h2 h
    cases l2 with
    | nil => simp_all
    | cons b t2 =>
      simp only [List.map_cons, List.cons.injEq] at h
      have hab : a = b :=
        digitChar_inj_of_lt (h1 a (by simp)) (h2 b (by simp)) h.1
      have ht : t = t2 :=
        ih t2 (fun x hx => h1 x (by simp [hx])) (fun x hx => h2 x (by simp [hx])) h.2
      rw [hab, ht]

theorem natStr_injective : Function.Injective natStr := by
  intro n m h
  unfold natStr at h
  have digits_of_eq : ∀ k j : ℕ, k ≠ 0 → j ≠ 0 →
      natStrAux k k = natStrAux j j → k = j := by
    intro k j hk hj he
    rw [natStrAux_eq_digits k k le_rfl, natStrAux_eq_digits j j le_rfl] at he
    have he2 : (Nat.digits 10 k).map Nat.digitChar = (Nat.digits 10 j).map Nat.digitChar := by
      have := congrArg List.reverse he
      simpa using this
    have hd : Nat.digits 10 k = Nat.digits 10 j :=
      map_digitChar_inj _ _ (fun x hx => Nat.digits_lt_base (by norm_num) hx)
        (fun x hx => Nat.digits_lt_base (by norm_num) hx) he2
    exact Nat.digits_inj_iff.mp hd
  by_cases hn : n = 0 <;> by_cases hm : m = 0
  · rw [hn, hm]
  · exfalso
    rw [if_pos hn, if_neg hm] at h
    have hdata : ['0'] = natStrAux m m := congrArg String.data h
    rw [natStrAux_eq_digits m m le_rfl] at hdata
    have : ([0] : List ℕ).map Nat.digitChar = ((Nat.digits 10 m).map Nat.digitChar).reverse := by
      simpa [Nat.digitChar] using hdata
    have h2 : ([0] : List ℕ).map Nat.digitChar = ((Nat.digits 10 m).reverse).map Nat.digitChar := by
      rw [this, List.map_reverse]
    have h3 : ([0] : List ℕ) = (Nat.digits 10 m).reverse :=
      map_digitChar_inj _ _ (by norm_num)
        (fun x hx => Nat.digits_lt_base (by norm_num) (List.mem_reverse.mp hx)) h2
    have h4 : Nat.digits 10 m = [0] := by
      have := congrArg List.reverse h3
      simpa using this.symm
    have h5 : m = 0 := by
      have := Nat.ofDigits_digits 10 m
      rw [h4] at this
      simpa [Nat.ofDigits] using this.symm
    exact hm h5
  · exfalso
    rw [if_neg hn, if_pos hm] at h
    have hdata : natStrAux n n = ['0'] := congrArg String.data h
    rw [natStrAux_eq_digits n n le_rfl] at hdata
    have : ((Nat.digits 10 n).map Nat.digitChar).reverse = ([0] : List ℕ).map Nat.digitChar := by
      simpa [Nat.digitChar] using hdata
    have h2 : ((Nat.digits 10 n).reverse).map Nat.digitChar = ([0] : List ℕ).map Nat.digitChar := by
      rw [← this, List.map_reverse]
    have h3 : (Nat.digits 10 n).reverse = ([0] : List ℕ) :=
      map_digitChar_inj _ _
        (fun x hx => Nat.digits_lt_base (by norm_num) (List.mem_reverse.mp hx)) (by norm_num) h2
    have h4 : Nat.digits 10 n = [0] := by
      have := congrArg List.reverse h3
      simpa using this
    have h5 : n = 0 := by
      have := Nat.ofDigits_digits 10 n
      rw [h4] at this
      simpa [Nat.ofDigits] using this.symm
    exact hn h5
  · rw [if_neg hn, if_neg hm] at h
    exact digits_of_eq n m hn hm (congrArg String.data h)

theorem strCancelLeft (a b c : String) : (a ++ b = a ++ c) ↔ b = c := by
  constructor
  · intro h
    have hd : a.data ++ b.data = a.data ++ c.data := by
      have := congrArg String.data h
      simpa using this
    have hbc := List.append_cancel_left hd
    cases b; cases c
    exact congrArg String.mk hbc
  · intro h; rw [h]

theorem strCancelRight (a b c : String) : (a ++ c = b ++ c) ↔ a = b := by
  constructor
  · intro h
    have hd : a.data ++ c.data = b.data ++ c.data := by
      have := congrArg String.data h
      simpa using this
    have hab := List.append_cancel_right hd
    cases a; cases b
    exact congrArg String.mk hab
  · intro h; rw [h]

/-- C1 counterexample: two configurations that differ in the polynomial fit
degree (`_ndeg` 4 versus 9) receive the identical save name from
`_gen_save_name`, so the cache key is not injective in the degree field. -/
theorem gen_save_name_degree_collision :
    gen_save_name cfgA 0 = gen_save_name cfgB 0 ∧ cfgA.ndegOpt = some 4 ∧ cfgB.ndegOpt = some 9 :=
  ⟨rfl, rfl, rfl⟩

/-- C1 amended: the save name is injective in each configuration field that
`_gen_save_name` actually embeds, holding the remaining fields fixed: the
defaulted image-mask and pupil-mask names, the oversampling, the field-of-view
pixel count, the wavefront-error map identity string, the basis kind (Legendre
flag), the filter whenever `quick` is enabled, and the jitter settings through
the formatted (rounded to integer mas) jitter sigma.  The polynomial degree is
not embedded at all (see the collision counterexample), filter is dropped when
`quick` is off, and jitter enters only through the rounded sigma. -/
theorem gen_save_name_field_sensitivity :
    (∀ (c : InstConfig) (v : Option String) (wfe : ℚ),
      c.image_mask.getD "NONE" ≠ v.getD "NONE" →
      gen_save_name { c with image_mask := v } wfe ≠ gen_save_name c wfe) ∧
    (∀ (c : InstConfig) (v : Option String) (wfe : ℚ),
      c.pupil_mask.getD "CLEAR" ≠ v.getD "CLEAR" →
      gen_save_name { c with pupil_mask := v } wfe ≠ gen_save_name c wfe) ∧
    (∀ (c : InstConfig) (v : ℕ) (wfe : ℚ), c.oversample ≠ v →
      gen_save_name { c with oversample := v } wfe ≠ gen_save_name c wfe) ∧
    (∀ (c : InstConfig) (v : ℕ) (wfe : ℚ), c.fov_pix ≠ v →
      gen_save_name { c with fov_pix := v } wfe ≠ gen_save_name c wfe) ∧
    (∀ (c : InstConfig) (v : String) (wfe : ℚ), c.opd_str ≠ v →
      gen_save_name { c with opd_str := v } wfe ≠ gen_save_name c wfe) ∧
    (∀ (c : InstConfig) (v : Bool) (wfe : ℚ), c.use_legendre ≠ v →
      gen_save_name { c with use_legendre := v } wfe ≠ gen_save_name c wfe) ∧
    (∀ (c : InstConfig) (v : String) (wfe : ℚ), quick c = true → c.filter ≠ v →
      gen_save_name { c with filter := v } wfe ≠ gen_save_name c wfe) ∧
    (∀ (c : InstConfig) (jv : Option String) (sv : Option ℚ) (wfe : ℚ),
      pyFmtF 0 (jsigEff { c with jitter := jv, jitter_sigma := sv } * 1000) ≠
        pyFmtF 0 (jsigEff c * 1000) →
      gen_save_name { c with jitter := jv, jitter_sigma := sv } wfe ≠ gen_save_name c wfe) := by
  refine ⟨?_, ?_, ?_, ?_, ?_, ?_, ?_, ?_⟩
  · intro c v wfe h he
    by_cases hnm : c.name = "NIRCam"
    · simp only [gen_save_name, String.append_assoc, if_pos hnm,
        strCancelLeft, strCancelRight] at he
      exact h he.symm
    · simp only [gen_save_name, String.append_assoc, if_neg hnm,
        strCancelLeft, strCancelRight] at he
      exact h he.symm
  · intro c v wfe h he
    by_cases hnm : c.name = "NIRCam"
    · simp only [gen_save_name, String.append_assoc, if_pos hnm,
        strCancelLeft, strCancelRight] at he
      exact h he.symm
    · simp only [gen_save_name, String.append_assoc, if_neg hnm,
        strCancelLeft, strCancelRight] at he
      exact h he.symm
  · intro c v wfe h he
    simp only [gen_save_name, String.append_assoc, strCancelLeft, strCancelRight] at he
    exact h (natStr_injective he).symm
  · intro c v wfe h he
    rcases hfp : c.use_fov_pix_plus1 with _ | _ <;>
      simp only [gen_save_name, hfp, Bool.false_eq_true, if_false, if_true,
        String.append_assoc, strCancelLeft, strCancelRight] at he
    · exact h (natStr_injective he).symm
    · have := natStr_injective he
      omega
  · intro c v wfe h he
    by_cases hw : wfe = 0
    · simp only [gen_save_name, hw, ne_eq, not_true_eq_false, if_false,
        String.append_assoc, strCancelLeft, strCancelRight] at he
      exact h he.symm
    · simp only [gen_save_name, ne_eq, hw, not_false_eq_true, if_true,
        String.append_assoc, strCancelLeft, strCancelRight] at he
      exact h he.symm
  · intro c v wfe h he
    rcases hv : v with _ | _ <;> rcases hcu : c.use_legendre with _ | _ <;>
      rw [hv] at h he <;> rw [hcu] at h <;> try exact h rfl
    · simp only [gen_save_name, hcu, Bool.false_eq_true, if_false, if_true,
        String.append_assoc, strCancelLeft, strCancelRight] at he
      exact absurd he (by decide)
    · simp only [gen_save_name, hcu, Bool.false_eq_true, if_false, if_true,
        String.append_assoc, strCancelLeft, strCancelRight] at he
      exact absurd he (by decide)
  · intro c v wfe hq h he
    by_cases hnm : c.name = "NIRCam"
    · simp only [gen_save_name, hq, if_true, if_pos hnm,
        String.append_assoc, strCancelLeft, strCancelRight] at he
      exact h he.symm
    · simp only [gen_save_name, hq, if_true, if_neg hnm,
        String.append_assoc, strCancelLeft, strCancelRight] at he
      exact h he.symm
  · intro c jv sv wfe h he
    simp only [gen_save_name, String.append_assoc, strCancelLeft, strCancelRight] at he
    exact h he

theorem natStr_data_len_pos (n : ℕ) : 1 ≤ (natStr n).data.length := by
  unfold natStr
  split
  · decide
  · next hn =>
    rw [natStrAux_eq_digits n n le_rfl]
    simp only [String.data]
    rw [List.length_reverse, List.length_map]
    have hne : Nat.digits 10 n ≠ [] := Nat.digits_ne_nil_iff_ne_zero.mpr hn
    cases hd : Nat.digits 10 n
    · exact absurd hd hne
    · simp

theorem pyFmtCore_prec_zero (sign : String) (mag : ℕ) :
    pyFmtCore sign mag 0 = sign ++ natStr mag := by
  unfold pyFmtCore padZeroChars
  have hlen := natStr_data_len_pos mag
  have hrep : 1 - (natStr mag).data.length = 0 := by omega
  simp only [hrep, List.replicate_zero, List.nil_append, Nat.sub_zero,
    List.take_length, List.drop_length, if_pos rfl]
  have hmk : String.mk (natStr mag).data = natStr mag := rfl
  rw [hmk]
  cases sign
  simp [String.append]

theorem rndHalfEven_intCast (n : ℤ) : rndHalfEven ((n : ℚ)) = n := by
  unfold rndHalfEven
  norm_num

theorem pyFmtF_natCast (n : ℕ) : pyFmtF 0 ((n : ℚ)) = natStr n := by
  unfold pyFmtF
  have h0 : ¬((n : ℚ) < 0) := not_lt.mpr (by positivity)
  rw [if_neg h0]
  have hc : (n : ℚ) * 10 ^ 0 = ((n : ℤ) : ℚ) := by push_cast; ring
  rw [hc, rndHalfEven_intCast]
  rw [Int.natAbs_ofNat]
  exact pyFmtCore_prec_zero "" n

theorem jsig_fmt_ne_concrete :
    pyFmtF 0 (jsigEff { cfgA with jitter := some "gaussian", jitter_sigma := some 5 } * 1000) ≠
      pyFmtF 0 (jsigEff cfgA * 1000) := by
  have hj : jsigEff { cfgA with jitter := some "gaussian", jitter_sigma := some 5 } = 5 := by
    simp [jsigEff]
  have hj0 : jsigEff cfgA = 0 := by
    simp [jsigEff, cfgA]
  have h1 : jsigEff { cfgA with jitter := some "gaussian", jitter_sigma := some 5 } * 1000 =
      ((5000 : ℕ) : ℚ) := by
    rw [hj]; norm_num
  have h2 : jsigEff cfgA * 1000 = ((0 : ℕ) : ℚ) := by
    rw [hj0]; norm_num
  rw [h1, h2, pyFmtF_natCast, pyFmtF_natCast]
  decide

/-- Witness for the C1 amended theorem: each embedded field flips the save name
at a concrete NIRCam configuration. -/
theorem gen_save_name_field_sensitivity_witness :
    gen_save_name { cfgA with image_mask := some "MASK430R" } 0 ≠ gen_save_name cfgA 0 ∧
    gen_save_name { cfgA with pupil_mask := some "WEDGELYOT" } 0 ≠ gen_save_name cfgA 0 ∧
    gen_save_name { cfgA with oversample := 4 } 0 ≠ gen_save_name cfgA 0 ∧
    gen_save_name { cfgA with fov_pix := 65 } 0 ≠ gen_save_name cfgA 0 ∧
    gen_save_name { cfgA with opd_str := "OPDX" } 0 ≠ gen_save_name cfgA 0 ∧
    gen_save_name { cfgA with use_legendre := false } 0 ≠ gen_save_name cfgA 0 ∧
    gen_save_name { cfgA with filter := "F200W" } 0 ≠ gen_save_name cfgA 0 ∧
    gen_save_name { cfgA with jitter := some "gaussian", jitter_sigma := some 5 } 0 ≠
      gen_save_name cfgA 0 :=
  ⟨gen_save_name_field_sensitivity.1 cfgA (some "MASK430R") 0 (by decide),
   gen_save_name_field_sensitivity.2.1 cfgA (some "WEDGELYOT") 0 (by decide),
   gen_save_name_field_sensitivity.2.2.1 cfgA 4 0 (by decide),
   gen_save_name_field_sensitivity.2.2.2.1 cfgA 65 0 (by decide),
   gen_save_name_field_sensitivity.2.2.2.2.1 cfgA "OPDX" 0 (by decide),
   gen_save_name_field_sensitivity.2.2.2.2.2.1 cfgA false 0 (by decide),
   gen_save_name_field_sensitivity.2.2.2.2.2.2.1 cfgA "F200W" 0 (by decide) (by decide),
   gen_save_name_field_sensitivity.2.2.2.2.2.2.2 cfgA (some "gaussian") (some 5) 0
     jsig_fmt_ne_concrete⟩

/-- C8: whenever the `npsf` property produces a sample count M with fit degree
D, the guard `D + 1 ≤ M` holds for every configuration and every user-set
requested sample count, on both the NIRCam and the MIRI property. -/
theorem npsfClamp (d n0 : ℤ) :
    d + 1 ≤ (if (if n0 < 5 then 5 else n0) ≤ d then d + 1 else (if n0 < 5 then 5 else n0)) := by
  by_cases h1 : n0 < 5 <;> by_cases h2 : ((if n0 < 5 then 5 else n0) : ℤ) ≤ d <;>
    simp only [h1, h2, if_true, if_false, if_pos, if_neg] <;> omega

theorem npsf_exceeds_ndeg :
    (∀ (c : InstConfig) (m d : ℤ), nircamNpsf c = .ok m → nircamNdeg c = .ok d →
      d + 1 ≤ m) ∧
    (∀ c : InstConfig, miriNdeg c + 1 ≤ miriNpsf c) := by
  constructor
  · intro c m d hm hd
    unfold nircamNpsf at hm
    rw [hd] at hm
    simp only [Except.ok.injEq] at hm
    subst hm
    exact npsfClamp _ _
  · intro c
    unfold miriNpsf
    exact npsfClamp _ _

/-- Witness for C8 at a concrete configuration: a requested sample count of 3
with fit degree 4 is clamped up to 5 = 4 + 1 samples. -/
theorem npsf_exceeds_ndeg_witness :
    (4 : ℤ) + 1 ≤ 5 ∧ nircamNpsf { cfgA with npsfOpt := some 3 } = .ok 5 ∧
    miriNdeg cfgA + 1 ≤ miriNpsf cfgA :=
  ⟨npsf_exceeds_ndeg.1 { cfgA with npsfOpt := some 3 } 5 4 (by rfl) (by rfl),
   by rfl, npsf_exceeds_ndeg.2 cfgA⟩

theorem clampLoop_error_of_none :
    ∀ l : List (Option MonoImg), none ∈ l → ∃ e, clampLoop l = .error e := by
  intro l hmem
  induction l with
  | nil => simp at hmem
  | cons h t ih =>
    cases h with
    | none => exact ⟨_, rfl⟩
    | some im =>
      have ht : none ∈ t := by simpa using hmem
      obtain ⟨e, he⟩ := ih ht
      exact ⟨e, by simp [clampLoop, he]⟩

theorem collectSP_aborts (engine : ℚ → Option MonoImg) :
    ∀ (waves : List ℚ) (w0 : ℚ), w0 ∈ waves → engine w0 = none →
      (∃ e, (collectSP engine waves).1 = .error e) ∧
      ∃ w1, w1 ∈ waves ∧ engine w1 = none ∧
        wrapErrMsg w1 ∈ (collectSP engine waves).2 := by
  intro waves
  induction waves with
  | nil => intro w0 h; simp at h
  | cons w rest ih =>
    intro w0 hmem hw0
    by_cases hw : engine w = none
    · refine ⟨⟨"RuntimeError: Returned None values. Issue with STPSF??", ?_⟩, w, by simp, hw, ?_⟩
      · simp [collectSP, wrap_coeff_for_mp, hw]
      · simp [collectSP, wrap_coeff_for_mp, hw]
    · obtain ⟨im, him⟩ := Option.ne_none_iff_exists'.mp hw
      have hw0r : w0 ∈ rest := by
        rcases List.mem_cons.mp hmem with h | h
        · exact absurd (h ▸ hw0) hw
        · exact h
      obtain ⟨⟨e, he⟩, w1, hw1, hw1n, hw1log⟩ := ih w0 hw0r hw0
      refine ⟨⟨e, ?_⟩, w1, by simp [hw1], hw1n, ?_⟩
      · simp only [collectSP, wrap_coeff_for_mp, him]
        rcases hc : collectSP engine rest with ⟨r, lgs⟩
        rw [hc] at he
        cases r with
        | error e2 => simp at he; simp [he]
        | ok v => simp at he
      · simp only [collectSP, wrap_coeff_for_mp, him]
        rcases hc : collectSP engine rest with ⟨r, lgs⟩
        rw [hc] at hw1log
        cases r <;> simpa using hw1log

/-- C2: if any single engine invocation in the batch fails, then in both the
multiprocess and single-process paths the batch aborts with an error before
the polynomial fit is reached (so the failed result is never incorporated into
a fit), and the failure is reported in the log together with the offending
wavelength value. -/
theorem engine_failure_aborts_batch
    (engine : ℚ → Option MonoImg) (waves : List ℚ) (nproc : ℕ) (w0 : ℚ)
    (hmem : w0 ∈ waves) (hfail : engine w0 = none) :
    (∃ e, (genPsfCoeffImages engine nproc waves).1 = .error e) ∧
    (∀ fit : List MonoImg → MonoImg, ∃ e,
      genPsfCoeffFit fit engine nproc waves = .error e) ∧
    (∃ w1, w1 ∈ waves ∧ engine w1 = none ∧
      wrapErrMsg w1 ∈ (genPsfCoeffImages engine nproc waves).2) := by
  have hmain : (∃ e, (genPsfCoeffImages engine nproc waves).1 = .error e) ∧
      ∃ w1, w1 ∈ waves ∧ engine w1 = none ∧
        wrapErrMsg w1 ∈ (genPsfCoeffImages engine nproc waves).2 := by
    unfold genPsfCoeffImages
    by_cases hn : nproc > 1
    · simp only [hn, if_true]
      unfold runBatchMP
      rcases waves with _ | ⟨w, rest⟩
      · simp at hmem
      · have hlog : wrapErrMsg w0 ∈
            (((w :: rest).map (wrap_coeff_for_mp engine)).map Prod.snd).flatten := by
          rw [List.mem_flatten]
          refine ⟨[wrapErrMsg w0], ?_, by simp⟩
          rw [List.map_map]
          refine List.mem_map.mpr ⟨w0, hmem, ?_⟩
          simp [wrap_coeff_for_mp, hfail]
        by_cases hw : engine w = none
        · refine ⟨⟨"RuntimeError: Returned None values. Issue with multiprocess or STPSF??", ?_⟩,
            w0, hmem, hfail, ?_⟩
          · simp [wrap_coeff_for_mp, hw]
          · simpa [wrap_coeff_for_mp, hw] using hlog
        · obtain ⟨im, him⟩ := Option.ne_none_iff_exists'.mp hw
          have hnone : none ∈ ((w :: rest).map (wrap_coeff_for_mp engine)).map Prod.fst := by
            rw [List.map_map]
            refine List.mem_map.mpr ⟨w0, hmem, ?_⟩
            simp [wrap_coeff_for_mp, hfail]
          obtain ⟨e, he⟩ := clampLoop_error_of_none _ hnone
          refine ⟨⟨e, ?_⟩, w0, hmem, hfail, ?_⟩
          · simpa [wrap_coeff_for_mp, him, he] using he
          · simpa [wrap_coeff_for_mp, him] using hlog
    · simp only [hn, if_false]
      obtain ⟨⟨e, he⟩, w1, hw1, hw1n, hw1log⟩ := collectSP_aborts engine waves w0 hmem hfail
      unfold runBatchSP
      rcases hc : collectSP engine waves with ⟨r, lgs⟩
      rw [hc] at he hw1log
      cases r with
      | error e2 => exact ⟨⟨e2, by simp⟩, w1, hw1, hw1n, by simpa using hw1log⟩
      | ok v => simp at he
  refine ⟨hmain.1, ?_, hmain.2⟩
  intro fit
  obtain ⟨e, he⟩ := hmain.1
  exact ⟨e, by simp [genPsfCoeffFit, he, Except.map]⟩

/-- Witness for C2 at a concrete batch: wavelength 2 of [1, 2, 3] fails under
the multiprocess path (nproc = 4). -/
theorem engine_failure_aborts_batch_witness :
    (∃ e, (genPsfCoeffImages engineEx 4 [1, 2, 3]).1 = .error e) ∧
    (∀ fit : List MonoImg → MonoImg, ∃ e,
      genPsfCoeffFit fit engineEx 4 [1, 2, 3] = .error e) ∧
    (∃ w1, w1 ∈ [(1 : ℚ), 2, 3] ∧ engineEx w1 = none ∧
      wrapErrMsg w1 ∈ (genPsfCoeffImages engineEx 4 [1, 2, 3]).2) :=
  engine_failure_aborts_batch engineEx [1, 2, 3] 4 2 (by decide) (by decide)

theorem imSum_map_div (im : MonoImg) (s : ℚ) :
    imSum (im.map (· / s)) = imSum im / s := by
  induction im with
  | nil => simp [imSum]
  | cons a t ih => simp [imSum, add_div] at ih ⊢; rw [ih]

/-- C5: after the normalization step of `_gen_psf_coeff`, every image has
total pixel sum at most 1; an image whose sum is at most 1 is left unchanged,
and an image whose sum exceeds 1 is divided by its sum, making the clamped
total exactly 1.  The batch form: every image in a successfully clamped batch
sums to at most 1. -/
theorem psf_sum_clamp :
    (∀ im : MonoImg,
      (imSum im ≤ 1 → clampPsfSum im = im) ∧
      (1 < imSum im → imSum (clampPsfSum im) = 1) ∧
      imSum (clampPsfSum im) ≤ 1) ∧
    (∀ (l : List (Option MonoImg)) (out : List MonoImg), clampLoop l = .ok out →
      ∀ im ∈ out, imSum im ≤ 1) := by
  have hone : ∀ im : MonoImg, 1 < imSum im → imSum (clampPsfSum im) = 1 := by
    intro im h
    have hs : imSum im ≠ 0 := by positivity
    simp only [clampPsfSum, if_pos h]
    rw [imSum_map_div, div_self hs]
  have hle : ∀ im : MonoImg, imSum (clampPsfSum im) ≤ 1 := by
    intro im
    by_cases h : 1 < imSum im
    · rw [hone im h]
    · simp only [clampPsfSum, if_neg h]
      exact le_of_not_lt h
  refine ⟨fun im => ⟨fun h => ?_, hone im, hle im⟩, ?_⟩
  · simp only [clampPsfSum, if_neg (not_lt.mpr h)]
  · intro l
    induction l with
    | nil =>
      intro out h im hmem
      simp only [clampLoop, Except.ok.injEq] at h
      simp [← h] at hmem
    | cons hd t ih =>
      intro out h im hmem
      cases hd with
      | none => simp [clampLoop] at h
      | some a =>
        simp only [clampLoop] at h
        rcases hc : clampLoop t with e2 | v
        · rw [hc] at h; simp at h
        · rw [hc] at h
          simp only [Except.ok.injEq] at h
          subst h
          rcases List.mem_cons.mp hmem with hh | hh
          · rw [hh]; exact hle a
          · exact ih v hc im hh

theorem one_lt_imSum_pair : (1 : ℚ) < imSum [1, 1] := by
  norm_num [imSum]

/-- Witness for C5: the image `[1, 1]` has sum 2 > 1 and is clamped to total
exactly 1; the clamped batch `[some [1, 1]]` satisfies the bound. -/
theorem psf_sum_clamp_witness :
    imSum (clampPsfSum [1, 1]) = 1 ∧
    (∀ im ∈ [clampPsfSum [1, 1]], imSum im ≤ 1) :=
  ⟨(psf_sum_clamp.1 [1, 1]).2.1 one_lt_imSum_pair,
   psf_sum_clamp.2 [some [1, 1]] [clampPsfSum [1, 1]] rfl⟩

/-- C9 counterexample: calling with an image mask in place and
`wfe_drift = -1` does raise the `AssertionError`, but the mask-dependent
coefficient-modification step has already been performed before the assertion,
refuting the claim that the error precedes any coefficient modification. -/
theorem calc_psf_negative_drift_counterexample :
    ¬((calcPsfFromCoeffTrace true (some (-1))).assertionError = true →
        CalcEv.maskMod ∉ (calcPsfFromCoeffTrace true (some (-1))).events ∧
        CalcEv.fieldMod ∉ (calcPsfFromCoeffTrace true (some (-1))).events) := by
  intro h
  have hub : (calcPsfFromCoeffTrace true (some (-1))).assertionError = true := by
    simp only [calcPsfFromCoeffTrace, Option.getD]
    norm_num
  have hmem : CalcEv.maskMod ∈ (calcPsfFromCoeffTrace true (some (-1))).events := by
    simp only [calcPsfFromCoeffTrace, Option.getD]
    norm_num
  exact (h hub).1 hmem

/-- C9 amended: for every call with `wfe_drift < 0`, an `AssertionError` is
raised after the field/mask coefficient-modification step but before the
drift-correction path, before the modifications are applied to the baseline
coefficients, and before any image synthesis; and the drift-correction path is
entered exactly when `wfe_drift > 0`. -/
theorem calc_psf_negative_drift_aborts :
    (∀ (mask : Bool) (wfeOpt : Option ℚ), wfeOpt.getD 0 < 0 →
      (calcPsfFromCoeffTrace mask wfeOpt).assertionError = true ∧
      CalcEv.driftMod ∉ (calcPsfFromCoeffTrace mask wfeOpt).events ∧
      CalcEv.applyMod ∉ (calcPsfFromCoeffTrace mask wfeOpt).events ∧
      CalcEv.synth ∉ (calcPsfFromCoeffTrace mask wfeOpt).events) ∧
    (∀ (mask : Bool) (wfeOpt : Option ℚ),
      CalcEv.driftMod ∈ (calcPsfFromCoeffTrace mask wfeOpt).events ↔
        0 < wfeOpt.getD 0) := by
  constructor
  · intro mask wfeOpt hneg
    simp only [calcPsfFromCoeffTrace, if_pos hneg]
    cases mask <;> simp
  · intro mask wfeOpt
    by_cases hneg : wfeOpt.getD 0 < 0
    · simp only [calcPsfFromCoeffTrace, if_pos hneg]
      constructor
      · intro h; cases mask <;> simp at h
      · intro h; exact absurd (lt_trans hneg h) (lt_irrefl _)
    · simp only [calcPsfFromCoeffTrace, if_neg hneg]
      by_cases hpos : 0 < wfeOpt.getD 0
      · simp only [if_pos hpos]
        cases mask <;> simp [hpos]
      · simp only [if_neg hpos]
        cases mask <;> simp [hpos]

/-- Witness for the C9 amended theorem at `wfe_drift = -1` with a mask. -/
theorem calc_psf_negative_drift_aborts_witness :
    ((calcPsfFromCoeffTrace true (some (-1))).assertionError = true ∧
      CalcEv.driftMod ∉ (calcPsfFromCoeffTrace true (some (-1))).events ∧
      CalcEv.applyMod ∉ (calcPsfFromCoeffTrace true (some (-1))).events ∧
      CalcEv.synth ∉ (calcPsfFromCoeffTrace true (some (-1))).events) ∧
    (CalcEv.driftMod ∈ (calcPsfFromCoeffTrace false (some 5)).events ↔
      (0 : ℚ) < (some (5 : ℚ)).getD 0) :=
  ⟨calc_psf_negative_drift_aborts.1 true (some (-1)) (by norm_num),
   calc_psf_negative_drift_aborts.2 false (some 5)⟩

/-- C6 counterexample: building the drift residual model with
`wfe_list = [5, 0]` (zero perturbation at index 1, permitted by the exposed
`wfe_list` argument) stores at the zero-perturbation node the difference
`cube(0) - cube(5)`, which is -5 and not 0 for the cube family `cube(w) = w`. -/
theorem wfedrift_residual_zero_node_counterexample :
    ((wfedriftResiduals [5, 0] (fun w => fun _ => w)).getD 1 (fun _ => 0)) 0 = -5 ∧
    ((-5 : ℚ) ≠ 0) ∧ ([(5 : ℚ), 0].getD 1 0 = 0) := by
  refine ⟨?_, by norm_num, by simp⟩
  simp [wfedriftResiduals]
  try norm_num

/-- C6 amended: both builders store differences against a baseline cube — for
`_gen_wfemask_coeff` the zero-offset cube (so the zero-offset node residual is
exactly zero), and for `_gen_wfedrift_coeff` the cube of the first entry of
`wfe_list`, which is the zero-perturbation cube exactly when the list starts
with 0, as the default `[0,1,2,5,10,20,40]` does; in that case the node at the
zero perturbation (index 0) has residual exactly zero. -/
theorem residuals_subtract_baseline :
    (∀ (wfe_list : List ℚ) (cube : ℚ → CubeVec) (k : ℕ) (p : ℕ),
      k < wfe_list.length →
      (wfedriftResiduals wfe_list cube).getD k (fun _ => 0) p =
        cube (wfe_list.getD k 0) p - cube (wfe_list.headD 0) p) ∧
    (∀ (wfe_list : List ℚ) (cube : ℚ → CubeVec) (p : ℕ),
      wfe_list.head? = some 0 → wfe_list ≠ [] →
      (wfedriftResiduals wfe_list cube).getD 0 (fun _ => 0) p = 0) ∧
    (∀ (offsets : List (ℚ × ℚ)) (cube : ℚ × ℚ → CubeVec) (k : ℕ) (p : ℕ),
      k < offsets.length →
      (wfemaskResiduals offsets cube).getD k (fun _ => 0) p =
        cube (offsets.getD k (0, 0)) p - cube (0, 0) p) ∧
    (∀ (offsets : List (ℚ × ℚ)) (cube : ℚ × ℚ → CubeVec) (k : ℕ) (p : ℕ),
      k < offsets.length → offsets.getD k (0, 0) = (0, 0) →
      (wfemaskResiduals offsets cube).getD k (fun _ => 0) p = 0) := by
  have hdrift : ∀ (wfe_list : List ℚ) (cube : ℚ → CubeVec) (k : ℕ) (p : ℕ),
      k < wfe_list.length →
      (wfedriftResiduals wfe_list cube).getD k (fun _ => 0) p =
        cube (wfe_list.getD k 0) p - cube (wfe_list.headD 0) p := by
    intro wfe_list cube k p hk
    simp only [wfedriftResiduals]
    rcases wfe_list with _ | ⟨w0, rest⟩
    · simp at hk
    · have hk2 : k < (w0 :: rest).length := hk
      rw [show ((w0 :: rest).map cube).headD (fun _ => 0) = cube w0 by simp]
      rw [List.getD_eq_getElem?_getD, List.getElem?_map, List.getElem?_map,
        List.getElem?_eq_getElem hk2]
      simp [List.getD_eq_getElem?_getD, List.getElem?_eq_getElem hk2]
  have hmask : ∀ (offsets : List (ℚ × ℚ)) (cube : ℚ × ℚ → CubeVec) (k : ℕ) (p : ℕ),
      k < offsets.length →
      (wfemaskResiduals offsets cube).getD k (fun _ => 0) p =
        cube (offsets.getD k (0, 0)) p - cube (0, 0) p := by
    intro offsets cube k p hk
    unfold wfemaskResiduals
    simp only [List.getD_eq_getElem?_getD, List.getElem?_map,
      List.getElem?_eq_getElem hk]
    simp
  refine ⟨hdrift, ?_, hmask, ?_⟩
  · intro wfe_list cube p hhead hne
    have h0 : 0 < wfe_list.length := List.length_pos.mpr hne
    rw [hdrift wfe_list cube 0 p h0]
    have hg : wfe_list.getD 0 0 = wfe_list.headD 0 := by
      rcases wfe_list with _ | ⟨a, t⟩
      · simp at hne
      · simp
    rw [hg, sub_self]
  · intro offsets cube k p hk hzero
    rw [hmask offsets cube k p hk, hzero, sub_self]

/-- Witness for the C6 amended theorem on concrete grids. -/
theorem residuals_subtract_baseline_witness :
    ((wfedriftResiduals [0, 10] (fun w => fun _ => w)).getD 1 (fun _ => 0) 0 =
      (fun w => fun _ => (w : ℚ)) ([(0 : ℚ), 10].getD 1 0) 0 -
        (fun w => fun _ => (w : ℚ)) ([(0 : ℚ), 10].headD 0) 0) ∧
    ((wfedriftResiduals [0, 10] (fun w => fun _ => w)).getD 0 (fun _ => 0) 0 = 0) ∧
    ((wfemaskResiduals [(0, 0), (1, 2)] (fun v => fun _ => v.1 + v.2)).getD 0
      (fun _ => 0) 0 = 0) :=
  ⟨residuals_subtract_baseline.1 [0, 10] (fun w => fun _ => w) 1 0 (by decide),
   residuals_subtract_baseline.2.1 [0, 10] (fun w => fun _ => w) 0 rfl (by decide),
   residuals_subtract_baseline.2.2.2 [(0, 0), (1, 2)] (fun v => fun _ => v.1 + v.2) 0 0
     (by decide) rfl⟩

theorem pad_or_cut_2d_shape (f : (ℕ → ℕ → ℚ) → ℕ → ℕ → ℚ → ℚ → ℚ → (ℕ → ℕ → ℚ))
    (ny nx ny2 nx2 : ℕ) (d : List ℕ → ℚ) (hne : ¬(ny = ny2 ∧ nx = nx2)) :
    ∃ r, pad_or_cut_to_size f ⟨[ny, nx], d⟩ (.tup [ny2, nx2]) 0 none = .ok r ∧
      r.shape = [ny2, nx2] := by
  unfold pad_or_cut_to_size
  simp only [normNewShape]
  rw [if_neg (by simpa using hne : ¬(([ny, nx] : List ℕ) = [ny2, nx2] ∧ True))]
  exact ⟨_, rfl, rfl⟩

/-- C10: for a 2-D input whose shape already equals the requested `new_shape`
(with no offsets), `pad_or_cut_to_size` returns a 3-D array of shape
`(1, ny, nx)` carrying the same values — the internal reshape is returned
without removing the leading singleton axis — whereas for a 2-D input whose
shape differs the result has shape exactly `new_shape`. -/
theorem pad_or_cut_rank_anomaly (ny nx ny2 nx2 : ℕ) (d : List ℕ → ℚ) :
    ((ny2, nx2) = (ny, nx) →
      ∃ r, pad_or_cut_to_size fshiftPad ⟨[ny, nx], d⟩ (.tup [ny2, nx2]) 0 none = .ok r ∧
        r.shape = [1, ny, nx] ∧ ∀ i j : ℕ, r.dat [0, i, j] = d [i, j]) ∧
    ((ny2, nx2) ≠ (ny, nx) →
      ∃ r, pad_or_cut_to_size fshiftPad ⟨[ny, nx], d⟩ (.tup [ny2, nx2]) 0 none = .ok r ∧
        r.shape = [ny2, nx2]) := by
  constructor
  · intro heq
    obtain ⟨h1, h2⟩ := Prod.mk.injEq .. ▸ heq
    subst h1; subst h2
    unfold pad_or_cut_to_size
    simp only [normNewShape]
    rw [if_pos (by simp)]
    exact ⟨_, rfl, rfl, fun i j => rfl⟩
  · intro hne
    have hne2 : ¬(ny = ny2 ∧ nx = nx2) := by
      intro ⟨h1, h2⟩
      exact hne (by rw [h1, h2])
    exact pad_or_cut_2d_shape fshiftPad ny nx ny2 nx2 d hne2

/-- Witness for C10: a 4x4 array resized to (4,4) comes back 3-D with shape
(1,4,4) and unchanged values, while resizing to (2,6) yields shape (2,6). -/
theorem pad_or_cut_rank_anomaly_witness :
    (∃ r, pad_or_cut_to_size fshiftPad ⟨[4, 4], fun _ => 7⟩ (.tup [4, 4]) 0 none = .ok r ∧
      r.shape = [1, 4, 4] ∧ ∀ i j : ℕ, r.dat [0, i, j] = (fun _ => (7 : ℚ)) [i, j]) ∧
    (∃ r, pad_or_cut_to_size fshiftPad ⟨[4, 4], fun _ => 7⟩ (.tup [2, 6]) 0 none = .ok r ∧
      r.shape = [2, 6]) :=
  ⟨(pad_or_cut_rank_anomaly 4 4 4 4 (fun _ => 7)).1 rfl,
   (pad_or_cut_rank_anomaly 4 4 2 6 (fun _ => 7)).2 (by decide)⟩

theorem mapM_ok_of_all_ok {α : Type} (g : ℕ → Except String α) :
    ∀ l : List ℕ, (∀ z ∈ l, ∃ r, g z = .ok r) → ∃ rs, l.mapM g = .ok rs := by
  intro l
  induction l with
  | nil => intro _; exact ⟨[], rfl⟩
  | cons a t ih =>
    intro hall
    obtain ⟨r, hr⟩ := hall a (by simp)
    obtain ⟨rs, hrs⟩ := ih (fun z hz => hall z (by simp [hz]))
    refine ⟨r :: rs, ?_⟩
    rw [List.mapM_cons, hr, hrs]
    rfl

/-- C7: whenever the correction tensor's trailing pixel dimensions differ from
the baseline cube's, both query-time resize tails rebuild the correction with
exactly the cube's pixel dimensions via `pad_or_cut_to_size`, and no error is
raised. -/
theorem query_resize_tolerates_mismatch (psf_coeff cf_mod : Cube3)
    (hne : (cf_mod.ny, cf_mod.nx) ≠ (psf_coeff.ny, psf_coeff.nx)) :
    (∃ r, driftResizeTail psf_coeff cf_mod = .ok r ∧
      r.nz = cf_mod.nz ∧ r.ny = psf_coeff.ny ∧ r.nx = psf_coeff.nx) ∧
    (∃ r, maskResizeTail psf_coeff cf_mod = .ok r ∧
      r.nz = cf_mod.nz ∧ r.ny = psf_coeff.ny ∧ r.nx = psf_coeff.nx) := by
  have hne2 : ¬(cf_mod.ny = psf_coeff.ny ∧ cf_mod.nx = psf_coeff.nx) := by
    intro ⟨h1, h2⟩
    exact hne (by rw [h1, h2])
  have hplanes : ∃ rs, (List.range cf_mod.nz).mapM
      (fun z => pad_or_cut_to_size fshiftPad (cube3Plane cf_mod z)
        (.tup [psf_coeff.ny, psf_coeff.nx]) 0 none) = .ok rs := by
    refine mapM_ok_of_all_ok _ _ (fun z _ => ?_)
    obtain ⟨r, hr, _⟩ := pad_or_cut_2d_shape fshiftPad cf_mod.ny cf_mod.nx
      psf_coeff.ny psf_coeff.nx (cube3Plane cf_mod z).dat hne2
    exact ⟨r, hr⟩
  obtain ⟨rs, hrs⟩ := hplanes
  constructor
  · have hd : driftResizeTail psf_coeff cf_mod = .ok ⟨cf_mod.nz, psf_coeff.ny, psf_coeff.nx,
        fun z i j => (rs.getD z ⟨[], fun _ => 0⟩).dat [i, j]⟩ := by
      unfold driftResizeTail
      rw [if_neg hne2, hrs]
    exact ⟨_, hd, rfl, rfl, rfl⟩
  · have hd : maskResizeTail psf_coeff cf_mod = .ok ⟨cf_mod.nz, psf_coeff.ny, psf_coeff.nx,
        fun z i j => (rs.getD z ⟨[], fun _ => 0⟩).dat [i, j]⟩ := by
      unfold maskResizeTail
      rw [if_neg (by intro h; exact hne2 ⟨h.2.1, h.2.2⟩), hrs]
    exact ⟨_, hd, rfl, rfl, rfl⟩

/-- Witness for C7: a 2-plane 5x5 correction resized against a 2-plane 3x3
cube. -/
theorem query_resize_tolerates_mismatch_witness :
    (∃ r, driftResizeTail ⟨2, 3, 3, fun _ _ _ => 0⟩ ⟨2, 5, 5, fun _ _ _ => 1⟩ = .ok r ∧
      r.nz = 2 ∧ r.ny = 3 ∧ r.nx = 3) ∧
    (∃ r, maskResizeTail ⟨2, 3, 3, fun _ _ _ => 0⟩ ⟨2, 5, 5, fun _ _ _ => 1⟩ = .ok r ∧
      r.nz = 2 ∧ r.ny = 3 ∧ r.nx = 3) :=
  query_resize_tolerates_mismatch ⟨2, 3, 3, fun _ _ _ => 0⟩ ⟨2, 5, 5, fun _ _ _ => 1⟩
    (by decide)

/-- C4: with both drift models generated on a coronagraphic configuration, a
nonzero drift amplitude and matching tensor dimensions, the returned
correction is exactly `trans * off_axis_eval + (1 - trans) * on_axis_eval`
with `trans` the intensity transmission (the squared amplitude transmission,
lying in `[0,1]` when the amplitude does); at `trans = 1` the blend is
pointwise the off-axis evaluation, and at `trans = 0` — in particular when no
coordinate is given — it is pointwise the on-axis evaluation. -/
theorem wfe_drift_blend (st : WfeDriftState) (wfe_drift : ℚ)
    (ampTrans : ℚ × ℚ → ℚ) (cf_fit_on cf_fit_off : List Cube3)
    (hcoron : st.is_coron = true)
    (hon : st.cf_on = some cf_fit_on) (hoff : st.cf_off = some cf_fit_off)
    (hwfe : wfe_drift ≠ 0)
    (hny : (jl_poly wfe_drift cf_fit_on st.lxmap).ny = st.psf_coeff.ny)
    (hnx : (jl_poly wfe_drift cf_fit_on st.lxmap).nx = st.psf_coeff.nx) :
    (∀ c : ℚ × ℚ,
      coeff_mod_wfe_drift st wfe_drift (some c) ampTrans =
        .ok (some (blendCube ((ampTrans c) ^ 2)
          (jl_poly wfe_drift cf_fit_off st.lxmap)
          (jl_poly wfe_drift cf_fit_on st.lxmap)))) ∧
    (∀ c : ℚ × ℚ, 0 ≤ ampTrans c → ampTrans c ≤ 1 →
      0 ≤ (ampTrans c) ^ 2 ∧ (ampTrans c) ^ 2 ≤ 1) ∧
    (coeff_mod_wfe_drift st wfe_drift none ampTrans =
      .ok (some (blendCube 0
        (jl_poly wfe_drift cf_fit_off st.lxmap)
        (jl_poly wfe_drift cf_fit_on st.lxmap)))) ∧
    (∀ offc onc : Cube3, ∀ z i j : ℕ,
      (blendCube 1 offc onc).d z i j = offc.d z i j) ∧
    (∀ offc onc : Cube3, ∀ z i j : ℕ,
      (blendCube 0 offc onc).d z i j = onc.d z i j) := by
  have hresize : ∀ t : ℚ,
      driftResizeTail st.psf_coeff
        (blendCube t (jl_poly wfe_drift cf_fit_off st.lxmap)
          (jl_poly wfe_drift cf_fit_on st.lxmap)) =
      .ok (blendCube t (jl_poly wfe_drift cf_fit_off st.lxmap)
          (jl_poly wfe_drift cf_fit_on st.lxmap)) := by
    intro t
    unfold driftResizeTail
    rw [if_pos ⟨hny, hnx⟩]
  refine ⟨?_, ?_, ?_, ?_, ?_⟩
  · intro c
    unfold coeff_mod_wfe_drift
    rw [if_neg hwfe, hon]
    simp only [hcoron, if_true, hoff]
    rw [hresize]
    rfl
  · intro c h0 h1
    exact ⟨sq_nonneg _, by nlinarith⟩
  · unfold coeff_mod_wfe_drift
    rw [if_neg hwfe, hon]
    simp only [hcoron, if_true, hoff]
    rw [hresize]
    rfl
  · intro offc onc z i j
    simp [blendCube]
  · intro offc onc z i j
    simp [blendCube]

/-- Witness for C4 at a concrete state, amplitude transmission 1 everywhere
(fully open) at the queried coordinate. -/
theorem wfe_drift_blend_witness :
    (coeff_mod_wfe_drift stEx 5 (some (1, 1)) (fun _ => 1) =
      .ok (some (blendCube (((fun (_ : ℚ × ℚ) => (1 : ℚ)) ((1 : ℚ), (1 : ℚ))) ^ 2)
        (jl_poly 5 [⟨1, 1, 1, fun _ _ _ => 3⟩] stEx.lxmap)
        (jl_poly 5 [⟨1, 1, 1, fun _ _ _ => 2⟩] stEx.lxmap)))) ∧
    (coeff_mod_wfe_drift stEx 5 none (fun _ => 1) =
      .ok (some (blendCube 0
        (jl_poly 5 [⟨1, 1, 1, fun _ _ _ => 3⟩] stEx.lxmap)
        (jl_poly 5 [⟨1, 1, 1, fun _ _ _ => 2⟩] stEx.lxmap)))) :=
  have h := wfe_drift_blend stEx 5 (fun _ => 1)
    [⟨1, 1, 1, fun _ _ _ => 2⟩] [⟨1, 1, 1, fun _ _ _ => 3⟩]
    rfl rfl rfl (by decide) rfl rfl
  ⟨h.1 (1, 1), h.2.2.1⟩

/-- C3: the MIRI quadrant branch derives every non-explicit node from its
explicit counterpart by the appropriate flip with the compensating rotation
`2 * rotation` applied (the double-flip quadrant needs no rotation), with the
node coordinates mirrored accordingly; but in the NIRCam small-grid branches
the rotation guard is inverted (`if np.abs(field_rot) < 0.01: rotate`), so
with a rotated detector frame (rotation 1 degree, `field_rot = 2`) the
symmetry-derived node is left unrotated and differs from the claimed
flip-plus-rotation value whenever the rotation acts nontrivially. -/
theorem mask_symmetry_quadrants
    (n nypix nxpix : ℕ) (xs ys : ℕ → ℚ) (cf : CGrid)
    (rot : ℚ → CCube → CCube) (rotation : Option ℚ)
    (i j k : ℕ) (hi : i < n - 1) (hj : j < n - 1) (hk : k < n) :
    (miriCfAll n nypix nxpix rot rotation cf (n + i) k =
        rotate_offset rot (fieldRot2x rotation) (flipYImg nypix (cf (n - 2 - i) k)) ∧
      miriXoffAll n xs (n + i) k = xs k ∧
      miriYoffAll n ys (n + i) k = -ys (n - 2 - i)) ∧
    (miriCfAll n nypix nxpix rot rotation cf k (n + j) =
        rotate_offset rot (fieldRot2x rotation) (flipXImg nxpix (cf k (n - 2 - j))) ∧
      miriXoffAll n xs k (n + j) = -xs (n - 2 - j) ∧
      miriYoffAll n ys k (n + j) = ys k) ∧
    (miriCfAll n nypix nxpix rot rotation cf (n + i) (n + j) =
        flipXImg nxpix (flipYImg nypix (cf (n - 2 - i) (n - 2 - j))) ∧
      miriXoffAll n xs (n + i) (n + j) = -xs (n - 2 - j) ∧
      miriYoffAll n ys (n + i) (n + j) = -ys (n - 2 - i)) ∧
    (nrcRoundCfAll 2 1 rotEx (some 1) cfZero 0 2 0 0 0 = 0 ∧
      rotate_offset rotEx (fieldRot2x (some 1))
        (flipXImg 1 (cfZero 0 0)) 0 0 0 = 1 ∧
      nrcBarCfAll 2 1 rotEx (some 1) cfZero 2 0 0 0 0 = 0 ∧
      rotate_offset rotEx (fieldRot2x (some 1))
        (flipYImg 1 (cfZero 0 0)) 0 0 0 = 1) := by
  have hfr2 : fieldRot2x (some 1) = 2 := by norm_num [fieldRot2x]
  have hnabs : ¬(|(2 : ℚ)| < 1 / 100) := by
    rw [abs_of_pos (by norm_num : (0 : ℚ) < 2)]
    norm_num
  have hne2 : ¬((2 : ℚ) = 0) := by norm_num
  refine ⟨⟨?_, ?_, ?_⟩, ⟨?_, ?_, ?_⟩, ⟨?_, ?_, ?_⟩, ?_, ?_, ?_, ?_⟩
  · simp only [miriCfAll, hcatG, vcatG, miriNegY]
    rw [if_pos hk, if_neg (show ¬(n + i < n) by omega), Nat.add_sub_cancel_left]
  · simp only [miriXoffAll, hcatG, vcatG]
    rw [if_pos hk, if_neg (show ¬(n + i < n) by omega)]
  · simp only [miriYoffAll, hcatG, vcatG]
    rw [if_pos hk, if_neg (show ¬(n + i < n) by omega), Nat.add_sub_cancel_left]
  · simp only [miriCfAll, hcatG, vcatG, miriNegX]
    rw [if_neg (show ¬(n + j < n) by omega), if_pos hk, Nat.add_sub_cancel_left]
  · simp only [miriXoffAll, hcatG, vcatG]
    rw [if_neg (show ¬(n + j < n) by omega), if_pos hk, Nat.add_sub_cancel_left]
  · simp only [miriYoffAll, hcatG, vcatG]
    rw [if_neg (show ¬(n + j < n) by omega), if_pos hk]
  · simp only [miriCfAll, hcatG, vcatG, miriNegXY]
    rw [if_neg (show ¬(n + j < n) by omega), if_neg (show ¬(n + i < n) by omega),
      Nat.add_sub_cancel_left, Nat.add_sub_cancel_left]
  · simp only [miriXoffAll, hcatG, vcatG]
    rw [if_neg (show ¬(n + j < n) by omega), if_neg (show ¬(n + i < n) by omega),
      Nat.add_sub_cancel_left]
  · simp only [miriYoffAll, hcatG, vcatG]
    rw [if_neg (show ¬(n + j < n) by omega), if_neg (show ¬(n + i < n) by omega),
      Nat.add_sub_cancel_left]
  · simp only [nrcRoundCfAll, hcatG, vcatG, nrcRoundNegX, nrcRotIf]
    rw [if_neg (show ¬(2 < 2) by omega), if_pos (show 0 < 2 by omega), hfr2,
      if_neg hnabs]
    simp [flipXImg, cfZero]
  · rw [hfr2]
    simp only [rotate_offset]
    rw [if_neg hne2]
    simp [rotEx, flipXImg, cfZero]
  · simp only [nrcBarCfAll, vcatG, nrcBarNegY, nrcRotIf]
    rw [if_neg (show ¬(2 < 2) by omega), hfr2, if_neg hnabs]
    simp [flipYImg, cfZero]
  · rw [hfr2]
    simp only [rotate_offset]
    rw [if_neg hne2]
    simp [rotEx, flipYImg, cfZero]

/-- Witness for C3 at a concrete 2x2 explicit quadrant. -/
theorem mask_symmetry_quadrants_witness :
    (miriCfAll 2 1 1 rotEx (some 1) cfZero (2 + 0) 0 =
        rotate_offset rotEx (fieldRot2x (some 1)) (flipYImg 1 (cfZero (2 - 2 - 0) 0)) ∧
      miriXoffAll 2 (fun m => -(m : ℚ)) (2 + 0) 0 = -((0 : ℕ) : ℚ) ∧
      miriYoffAll 2 (fun m => -(m : ℚ)) (2 + 0) 0 = - -(((2 - 2 - 0 : ℕ)) : ℚ)) ∧
    (miriCfAll 2 1 1 rotEx (some 1) cfZero 0 (2 + 0) =
        rotate_offset rotEx (fieldRot2x (some 1)) (flipXImg 1 (cfZero 0 (2 - 2 - 0))) ∧
      miriXoffAll 2 (fun m => -(m : ℚ)) 0 (2 + 0) = - -(((2 - 2 - 0 : ℕ)) : ℚ) ∧
      miriYoffAll 2 (fun m => -(m : ℚ)) 0 (2 + 0) = -((0 : ℕ) : ℚ)) ∧
    (miriCfAll 2 1 1 rotEx (some 1) cfZero (2 + 0) (2 + 0) =
        flipXImg 1 (flipYImg 1 (cfZero (2 - 2 - 0) (2 - 2 - 0))) ∧
      miriXoffAll 2 (fun m => -(m : ℚ)) (2 + 0) (2 + 0) = - -(((2 - 2 - 0 : ℕ)) : ℚ) ∧
      miriYoffAll 2 (fun m => -(m : ℚ)) (2 + 0) (2 + 0) = - -(((2 - 2 - 0 : ℕ)) : ℚ)) ∧
    (nrcRoundCfAll 2 1 rotEx (some 1) cfZero 0 2 0 0 0 = 0 ∧
      rotate_offset rotEx (fieldRot2x (some 1)) (flipXImg 1 (cfZero 0 0)) 0 0 0 = 1 ∧
      nrcBarCfAll 2 1 rotEx (some 1) cfZero 2 0 0 0 0 = 0 ∧
      rotate_offset rotEx (fieldRot2x (some 1)) (flipYImg 1 (cfZero 0 0)) 0 0 0 = 1) :=
  mask_symmetry_quadrants 2 1 1 (fun m => -(m : ℚ)) (fun m => -(m : ℚ)) cfZero rotEx
    (some 1) 0 0 0 (by decide) (by decide) (by decide)
